import Mathlib

/-!
# Inkwell — shallow embedding of the REST backend and editor client

This file embeds the Express/Prisma backend (`server/index.ts`, the note-taking
REST API) and the relevant pieces of the React client (`App.tsx` debounced
autosave, `Editor.tsx` slash-command menu) as executable Lean definitions, and
proves the specification claims about them.

Modelling conventions:
* The relational database is a record of lists (one per table); Prisma calls
  become list operations on it.  Primary keys are `Nat`; fresh ids come from a
  `nextId` counter.
* `bcrypt` is idealised as an injective tagging function: `bcryptCompare pw h`
  holds exactly when `h` is the hash of `pw`.  Likewise JWTs are idealised as
  tagged strings; `jwtVerify` succeeds exactly on well-formed tokens.
* Timestamps are `Nat` values passed in as a `now` parameter.
* JSON bodies are records of `Option` fields (`none` = field absent), matching
  the JavaScript `undefined` checks in the handlers.
-/

namespace Inkwell

/-- `s.startsWith(p)`, computed on the character lists. -/
def strStartsWith (s p : String) : Bool := s.data.take p.data.length == p.data

def charDigit? (c : Char) : Option Nat :=
  if '0' ≤ c ∧ c ≤ '9' then some (c.toNat - '0'.toNat) else none

/-- Parse a non-empty all-digit string. -/
def digitsToNat? (cs : List Char) : Option Nat :=
  if cs.isEmpty then none
  else cs.foldl (fun acc c =>
    match acc, charDigit? c with
    | some n, some d => some (n * 10 + d)
    | _, _ => none) (some 0)

/-- `s.trim()`, computed on the character lists. -/
def strTrim (s : String) : String :=
  String.mk (((s.data.dropWhile Char.isWhitespace).reverse.dropWhile Char.isWhitespace).reverse)

/-- ASCII lower-casing of `toLowerCase()` (non-ASCII letters map to themselves
in all the strings involved). -/
def charToLower (c : Char) : Char :=
  if 'A' ≤ c ∧ c ≤ 'Z' then Char.ofNat (c.toNat + 32) else c

def strToLower (s : String) : String := String.mk (s.data.map charToLower)

/-- Idealised bcrypt hash (`bcrypt.hash(pw, 10)`): an injective tag of the
password; the salt is irrelevant to the control flow being verified. -/
def bcryptHash (pw : String) : String := "bc$" ++ pw

/-- Idealised `bcrypt.compare(pw, hash)`: true exactly when `hash` hashes `pw`. -/
def bcryptCompare (pw hash : String) : Bool := hash == bcryptHash pw

/-- Idealised `jwt.sign({userId}, JWT_SECRET)`. -/
def jwtSign (userId : Nat) : String := "jwt." ++ Nat.repr userId

/-- Idealised `jwt.verify(token, JWT_SECRET)`: succeeds exactly on tokens whose
payload parses back to a user id; on anything else the real call throws. -/
def jwtVerify (token : String) : Option Nat :=
  if strStartsWith token "jwt." then digitsToNat? (token.data.drop 4) else none

/-! ## Relational records (Prisma models) -/

structure User where
  id : Nat
  username : String
  password : String
deriving DecidableEq, Repr

structure Note where
  id : Nat
  userId : Nat
  title : String
  content : String
  pinned : Bool
  folderId : Option Nat
  lockPassword : Option String
  deletedAt : Option Nat
  createdAt : Nat
  updatedAt : Nat
  tagIds : List Nat
deriving DecidableEq, Repr

structure Folder where
  id : Nat
  userId : Nat
  name : String
  color : String
deriving DecidableEq, Repr

structure Tag where
  id : Nat
  userId : Nat
  name : String
  color : String
deriving DecidableEq, Repr

structure NoteVersion where
  id : Nat
  noteId : Nat
  title : String
  content : String
  createdAt : Nat
deriving DecidableEq, Repr

structure Comment where
  id : Nat
  noteId : Nat
  userId : Nat
  content : String
  createdAt : Nat
deriving DecidableEq, Repr

/-- The relational database state. -/
structure DB where
  users : List User
  notes : List Note
  folders : List Folder
  tags : List Tag
  versions : List NoteVersion
  comments : List Comment
  nextId : Nat
deriving DecidableEq, Repr

/-! ## JSON responses

`NoteView` records how a note row appears in a JSON response.  The `locked`
field is `none` when the handler does not add a `locked` key, and the
`lockPassword` field is `some h` exactly when the stored hash `h` appears in
the serialized response. -/

structure NoteView where
  id : Nat
  title : String
  content : String
  pinned : Bool
  folderId : Option Nat
  createdAt : Nat
  updatedAt : Nat
  deletedAt : Option Nat
  tagIds : List Nat
  locked : Option Bool
  lockPassword : Option String
deriving DecidableEq, Repr

/-- `res.json(note)` on the raw row (e.g. the trash route): every stored
column, the lock hash included, is serialized as-is. -/
def rawView (n : Note) : NoteView :=
  ⟨n.id, n.title, n.content, n.pinned, n.folderId, n.createdAt, n.updatedAt,
   n.deletedAt, n.tagIds, none, n.lockPassword⟩

/-- The sanitizing spread used by GET `/api/notes` and `/api/notes/random`:
`{...n, locked: !!n.lockPassword, content: n.lockPassword ? '' : n.content,
lockPassword: undefined}`. -/
def sanitizedView (n : Note) : NoteView :=
  { rawView n with
    locked := some n.lockPassword.isSome
    content := if n.lockPassword.isSome then "" else n.content
    lockPassword := none }

/-- The spread used by the PATCH response: `{...updated, locked: !!lockPassword,
lockPassword: undefined}` — note that `content` is NOT blanked. -/
def patchView (n : Note) : NoteView :=
  { rawView n with locked := some n.lockPassword.isSome, lockPassword := none }

inductive RespBody where
  | err (msg : String)
  | jsonNote (v : NoteView)
  | jsonNotes (vs : List NoteView)
  | auth (token : String) (userId : Nat) (username : String)
  | jsonFolder (f : Folder)
  | jsonFolders (fs : List Folder)
  | jsonTag (t : Tag)
  | jsonTags (ts : List Tag)
  | jsonVersions (vs : List NoteVersion)
  | jsonComments (cs : List Comment)
  | jsonComment (c : Comment)
  | okTrue
  | jsonNull
  | other
deriving DecidableEq, Repr

structure Resp where
  status : Nat
  body : RespBody
deriving DecidableEq, Repr

/-- A parsed request: the `Authorization` header, the `:id` path parameter, and
the JSON body fields used by any route (`none` = absent, matching the
JavaScript `undefined` checks). -/
structure Request where
  authHeader : Option String := none
  paramId : Nat := 0
  username : Option String := none
  password : Option String := none
  name : Option String := none
  color : Option String := none
  title : Option String := none
  content : Option String := none
  pinned : Option Bool := none
  folderId : Option (Option Nat) := none
  unlockPassword : Option String := none
  tagIds : List Nat := []
  mode : Option String := none
  rand : Nat := 0
deriving DecidableEq, Repr

/-- JavaScript string falsiness (`!s`): absent, null or empty. -/
def strFalsy (s : Option String) : Bool :=
  match s with
  | none => true
  | some t => t.isEmpty

/-- `!name?.trim()`: absent, or whitespace-only. -/
def nameBlank (s : Option String) : Bool :=
  match s with
  | none => true
  | some t => (strTrim t).isEmpty

/-- `color || defaultColor`. -/
def colorOr (c : Option String) (d : String) : String :=
  match c with
  | none => d
  | some s => if s.isEmpty then d else s

/-! ## Auth middleware and auth routes -/

inductive AuthOutcome where
  | fail (msg : String)
  | ok (userId : Nat)
deriving DecidableEq, Repr

/-- `header.split(' ')[1]`: the second space-separated segment of the header
(the empty string stands for JavaScript `undefined` — no second segment —
which `jwt.verify` rejects). -/
def headerToken (h : String) : String :=
  match h.data.dropWhile (fun c => !(c == ' ')) with
  | [] => ""
  | _ :: tl => String.mk (tl.takeWhile (fun c => !(c == ' ')))

/-- The `authenticate` middleware: 401 unless the header starts with
`Bearer ` and the token verifies. -/
def authenticate (header : Option String) : AuthOutcome :=
  match header with
  | none => .fail "未登录"
  | some h =>
    if strStartsWith h "Bearer " then
      match jwtVerify (headerToken h) with
      | some uid => .ok uid
      | none => .fail "登录已过期"
    else .fail "未登录"

/-- POST `/api/register`. -/
def register (r : Request) (db : DB) : Resp × DB :=
  if strFalsy r.username || strFalsy r.password then
    (⟨400, .err "用户名和密码不能为空"⟩, db)
  else if ((r.password).getD "").length < 4 then
    (⟨400, .err "密码至少4位"⟩, db)
  else if db.users.any (fun u => u.username == (r.username).getD "") then
    (⟨400, .err "用户名已存在"⟩, db)
  else
    let user : User := ⟨db.nextId, (r.username).getD "", bcryptHash ((r.password).getD "")⟩
    (⟨200, .auth (jwtSign user.id) user.id user.username⟩,
     { db with users := db.users ++ [user], nextId := db.nextId + 1 })

/-- POST `/api/login`. -/
def login (r : Request) (db : DB) : Resp × DB :=
  match db.users.find? (fun u => u.username == (r.username).getD "") with
  | none => (⟨400, .err "用户不存在"⟩, db)
  | some user =>
    if bcryptCompare ((r.password).getD "") user.password then
      (⟨200, .auth (jwtSign user.id) user.id user.username⟩, db)
    else (⟨400, .err "密码错误"⟩, db)

/-! ## Folder and tag routes -/

def folderLE (a b : Folder) : Bool := decide (a.name ≤ b.name)

/-- GET `/api/folders` (the `_count` include is presentation only and elided). -/
def getFolders (uid : Nat) (db : DB) : List Folder :=
  (db.folders.filter (fun f => f.userId == uid)).mergeSort folderLE

/-- POST `/api/folders`. -/
def postFolder (uid : Nat) (r : Request) (db : DB) : Resp × DB :=
  if nameBlank r.name then (⟨400, .err "文件夹名不能为空"⟩, db)
  else
    let f : Folder := ⟨db.nextId, uid, strTrim ((r.name).getD ""), colorOr r.color "#9b8e7e"⟩
    (⟨200, .jsonFolder f⟩, { db with folders := db.folders ++ [f], nextId := db.nextId + 1 })

/-- DELETE `/api/folders/:id`: clears `folderId` on the caller's notes in the
folder, then deletes the folder row by id alone — no ownership check on the
folder itself.  (A missing id makes `prisma.folder.delete` throw; the rejected
promise escapes the handler, modelled as a 500.) -/
def deleteFolder (uid : Nat) (r : Request) (now : Nat) (db : DB) : Resp × DB :=
  let id := r.paramId
  let db1 := { db with notes := db.notes.map (fun (n : Note) =>
    if n.folderId == some id && n.userId == uid then { n with folderId := none, updatedAt := now } else n) }
  match db1.folders.find? (fun f => f.id == id) with
  | none => (⟨500, .err "P2025"⟩, db1)
  | some _ => (⟨200, .okTrue⟩, { db1 with folders := db1.folders.filter (fun f => !(f.id == id)) })

def tagLE (a b : Tag) : Bool := decide (a.name ≤ b.name)

/-- GET `/api/tags`. -/
def getTags (uid : Nat) (db : DB) : List Tag :=
  (db.tags.filter (fun t => t.userId == uid)).mergeSort tagLE

/-- POST `/api/tags`. -/
def postTag (uid : Nat) (r : Request) (db : DB) : Resp × DB :=
  if nameBlank r.name then (⟨400, .err "标签名不能为空"⟩, db)
  else
    let t : Tag := ⟨db.nextId, uid, strTrim ((r.name).getD ""), colorOr r.color "#bf6a3d"⟩
    (⟨200, .jsonTag t⟩, { db with tags := db.tags ++ [t], nextId := db.nextId + 1 })

/-- DELETE `/api/tags/:id`: deletes the tag row by id alone — no ownership
check.  Deleting the tag also removes its join-table rows (implicit m2m). -/
def deleteTag (_uid : Nat) (r : Request) (db : DB) : Resp × DB :=
  let id := r.paramId
  match db.tags.find? (fun t => t.id == id) with
  | none => (⟨500, .err "P2025"⟩, db)
  | some _ =>
    (⟨200, .okTrue⟩,
     { db with
       tags := db.tags.filter (fun t => !(t.id == id))
       notes := db.notes.map (fun n => { n with tagIds := n.tagIds.filter (fun tid => !(tid == id)) }) })

/-! ## Note routes -/

/-- `orderBy: [{pinned: 'desc'}, {updatedAt: 'desc'}]`. -/
def noteListLE (a b : Note) : Bool :=
  if a.pinned == b.pinned then decide (b.updatedAt ≤ a.updatedAt) else a.pinned

/-- `orderBy: {deletedAt: 'desc'}`. -/
def trashLE (a b : Note) : Bool :=
  decide ((b.deletedAt).getD 0 ≤ (a.deletedAt).getD 0)

/-- GET `/api/notes`: the caller's live notes, sanitized for locked notes. -/
def notesList (uid : Nat) (db : DB) : List NoteView :=
  (((db.notes.filter (fun n => n.userId == uid && n.deletedAt == none)).mergeSort noteListLE).map sanitizedView)

/-- GET `/api/notes/trash`: the caller's deleted notes, serialized raw
(`res.json(notes)` — no sanitizing spread). -/
def trashList (uid : Nat) (db : DB) : List NoteView :=
  (((db.notes.filter (fun n => n.userId == uid && !(n.deletedAt == none))).mergeSort trashLE).map rawView)

/-- GET `/api/notes/random` in `random` mode; `Math.random()` is modelled by
the request's `rand` oracle.  (The `thisday` mode runs a date-parameterised raw
query and sanitizes identically; it is outside the claims and elided.) -/
def getRandomNote (uid : Nat) (r : Request) (db : DB) : Resp × DB :=
  if r.mode == some "thisday" then (⟨200, .other⟩, db)
  else
    let ids := (db.notes.filter (fun n => n.userId == uid && n.deletedAt == none)).map (fun n => n.id)
    if ids.isEmpty then (⟨200, .jsonNull⟩, db)
    else
      let randomId := ids.getD (r.rand % ids.length) 0
      match db.notes.find? (fun n => n.id == randomId) with
      | none => (⟨200, .jsonNull⟩, db)
      | some note => (⟨200, .jsonNote (sanitizedView note)⟩, db)

/-- POST `/api/notes` (`folderId || null` maps a falsy 0 to null). -/
def postNote (uid : Nat) (r : Request) (now : Nat) (db : DB) : Resp × DB :=
  let fid : Option Nat :=
    match r.folderId with
    | some (some f) => if f == 0 then none else some f
    | _ => none
  let n : Note :=
    { id := db.nextId, userId := uid, title := (r.title).getD "", content := (r.content).getD ""
      pinned := false, folderId := fid, lockPassword := none, deletedAt := none
      createdAt := now, updatedAt := now, tagIds := [] }
  (⟨200, .jsonNote (rawView n)⟩, { db with notes := db.notes ++ [n], nextId := db.nextId + 1 })

/-- The field whitelist loop in PATCH `/api/notes/:id`: apply every defined
body field to the row (`@updatedAt` refreshes the timestamp). -/
def applyData (r : Request) (now : Nat) (n : Note) : Note :=
  { n with
    title := (r.title).getD n.title
    content := (r.content).getD n.content
    pinned := (r.pinned).getD n.pinned
    folderId := (r.folderId).getD n.folderId
    updatedAt := now }

def versionLE (a b : NoteVersion) : Bool := decide (a.createdAt ≤ b.createdAt)

def versionGE (a b : NoteVersion) : Bool := decide (b.createdAt ≤ a.createdAt)

/-- The versions of one note (`where: { noteId: id }`). -/
def versionsOf (id : Nat) (db : DB) : List NoteVersion :=
  db.versions.filter (fun v => v.noteId == id)

/-- The snapshot block of PATCH `/api/notes/:id`: store a `NoteVersion` with
the note's previous title/content, then if the note now has more than 50
versions delete the `count - 50` oldest (by ascending `createdAt`). -/
def saveVersionSnapshot (id : Nat) (old : Note) (now : Nat) (db : DB) : DB :=
  let snap : NoteVersion := ⟨db.nextId, id, old.title, old.content, now⟩
  let db1 : DB := { db with versions := db.versions ++ [snap], nextId := db.nextId + 1 }
  let versionCount := (versionsOf id db1).length
  if versionCount > 50 then
    let oldest := ((versionsOf id db1).mergeSort versionLE).take (versionCount - 50)
    let oldIds := oldest.map (fun v => v.id)
    { db1 with versions := db1.versions.filter (fun v => !(decide (v.id ∈ oldIds))) }
  else db1

/-- PATCH `/api/notes/:id`.  The lock check fires only when the note is locked
AND the body supplies an `unlockPassword`; a body without one edits a locked
note freely. -/
def patchNote (uid : Nat) (r : Request) (now : Nat) (db : DB) : Resp × DB :=
  let id := r.paramId
  match db.notes.find? (fun n => n.id == id && n.userId == uid) with
  | none => (⟨404, .err "笔记不存在"⟩, db)
  | some note =>
    let pwCheckFails : Bool :=
      match note.lockPassword, r.unlockPassword with
      | some hash, some pw => !(bcryptCompare pw hash)
      | _, _ => false
    if pwCheckFails then (⟨403, .err "密码错误"⟩, db)
    else
      let db1 := if (r.content).isSome || (r.title).isSome then saveVersionSnapshot id note now db else db
      let updated := applyData r now note
      let db2 := { db1 with notes := db1.notes.map (fun (n : Note) =>
        if n.id == id then applyData r now n else n) }
      (⟨200, .jsonNote (patchView updated)⟩, db2)

/-- PUT `/api/notes/:id/tags`: `prisma.note.update({ where: { id } })` — no
ownership check; the raw updated row (hash included) is returned. -/
def putNoteTags (_uid : Nat) (r : Request) (now : Nat) (db : DB) : Resp × DB :=
  let id := r.paramId
  match db.notes.find? (fun n => n.id == id) with
  | none => (⟨500, .err "P2025"⟩, db)
  | some note =>
    let updated := { note with tagIds := r.tagIds, updatedAt := now }
    (⟨200, .jsonNote (rawView updated)⟩,
     { db with notes := db.notes.map (fun (n : Note) =>
        if n.id == id then { n with tagIds := r.tagIds, updatedAt := now } else n) })

/-- POST `/api/notes/:id/lock`. -/
def lockNote (uid : Nat) (r : Request) (now : Nat) (db : DB) : Resp × DB :=
  let id := r.paramId
  match db.notes.find? (fun n => n.id == id && n.userId == uid) with
  | none => (⟨404, .err "笔记不存在"⟩, db)
  | some _ =>
    if strFalsy r.password || ((r.password).getD "").length < 4 then
      (⟨400, .err "密码至少4位"⟩, db)
    else
      (⟨200, .okTrue⟩,
       { db with notes := db.notes.map (fun (n : Note) =>
          if n.id == id then { n with lockPassword := some (bcryptHash ((r.password).getD "")), updatedAt := now } else n) })

/-- POST `/api/notes/:id/unlock`: with the correct password the full row
(content included) is returned, tagged `locked: true`, hash stripped. -/
def unlockNote (uid : Nat) (r : Request) (db : DB) : Resp × DB :=
  let id := r.paramId
  match db.notes.find? (fun n => n.id == id && n.userId == uid) with
  | none => (⟨404, .err "笔记不存在"⟩, db)
  | some note =>
    match note.lockPassword with
    | none => (⟨400, .err "笔记未上锁"⟩, db)
    | some hash =>
      if bcryptCompare ((r.password).getD "") hash then
        (⟨200, .jsonNote { rawView note with locked := some true, lockPassword := none }⟩, db)
      else (⟨403, .err "密码错误"⟩, db)

/-- POST `/api/notes/:id/remove-lock`. -/
def removeLockNote (uid : Nat) (r : Request) (now : Nat) (db : DB) : Resp × DB :=
  let id := r.paramId
  match db.notes.find? (fun n => n.id == id && n.userId == uid) with
  | none => (⟨404, .err "笔记不存在"⟩, db)
  | some note =>
    match note.lockPassword with
    | none => (⟨400, .err "笔记未上锁"⟩, db)
    | some hash =>
      if bcryptCompare ((r.password).getD "") hash then
        (⟨200, .okTrue⟩,
         { db with notes := db.notes.map (fun (n : Note) =>
            if n.id == id then { n with lockPassword := none, updatedAt := now } else n) })
      else (⟨403, .err "密码错误"⟩, db)

/-- DELETE `/api/notes/:id` (soft delete): `prisma.note.update({ where: { id },
data: { deletedAt: new Date() } })` — no ownership check. -/
def softDeleteNote (_uid : Nat) (r : Request) (now : Nat) (db : DB) : Resp × DB :=
  let id := r.paramId
  match db.notes.find? (fun n => n.id == id) with
  | none => (⟨500, .err "P2025"⟩, db)
  | some _ =>
    (⟨200, .okTrue⟩,
     { db with notes := db.notes.map (fun (n : Note) =>
        if n.id == id then { n with deletedAt := some now, updatedAt := now } else n) })

/-- POST `/api/notes/:id/restore`: ownership-checked; clears `deletedAt` and
returns the raw updated row. -/
def restoreNote (uid : Nat) (r : Request) (now : Nat) (db : DB) : Resp × DB :=
  let id := r.paramId
  match db.notes.find? (fun n => n.id == id && n.userId == uid) with
  | none => (⟨404, .err "笔记不存在"⟩, db)
  | some note =>
    let updated := { note with deletedAt := (none : Option Nat), updatedAt := now }
    (⟨200, .jsonNote (rawView updated)⟩,
     { db with notes := db.notes.map (fun (n : Note) =>
        if n.id == id then { n with deletedAt := none, updatedAt := now } else n) })

/-- DELETE `/api/notes/:id/permanent`: ownership-checked hard delete (versions
and comments go with the row via referential integrity). -/
def permanentDeleteNote (uid : Nat) (r : Request) (db : DB) : Resp × DB :=
  let id := r.paramId
  match db.notes.find? (fun n => n.id == id && n.userId == uid) with
  | none => (⟨404, .err "笔记不存在"⟩, db)
  | some _ =>
    (⟨200, .okTrue⟩,
     { db with
       notes := db.notes.filter (fun n => !(n.id == id))
       versions := db.versions.filter (fun v => !(v.noteId == id))
       comments := db.comments.filter (fun c => !(c.noteId == id)) })

/-- GET `/api/notes/:id/versions`: ownership-checked; newest first, at most 50. -/
def getVersions (uid : Nat) (r : Request) (db : DB) : Resp × DB :=
  let id := r.paramId
  match db.notes.find? (fun n => n.id == id && n.userId == uid) with
  | none => (⟨404, .err "笔记不存在"⟩, db)
  | some _ => (⟨200, .jsonVersions (((versionsOf id db).mergeSort versionGE).take 50)⟩, db)

def commentLE (a b : Comment) : Bool := decide (a.createdAt ≤ b.createdAt)

/-- GET `/api/notes/:id/comments`. -/
def getComments (uid : Nat) (r : Request) (db : DB) : Resp × DB :=
  let id := r.paramId
  match db.notes.find? (fun n => n.id == id && n.userId == uid) with
  | none => (⟨404, .err "笔记不存在"⟩, db)
  | some _ =>
    (⟨200, .jsonComments ((db.comments.filter (fun c => c.noteId == id)).mergeSort commentLE)⟩, db)

/-- POST `/api/notes/:id/comments`. -/
def postComment (uid : Nat) (r : Request) (now : Nat) (db : DB) : Resp × DB :=
  let id := r.paramId
  match db.notes.find? (fun n => n.id == id && n.userId == uid) with
  | none => (⟨404, .err "笔记不存在"⟩, db)
  | some _ =>
    if nameBlank r.content then (⟨400, .err "评论内容不能为空"⟩, db)
    else
      let c : Comment := ⟨db.nextId, id, uid, strTrim ((r.content).getD ""), now⟩
      (⟨200, .jsonComment c⟩, { db with comments := db.comments ++ [c], nextId := db.nextId + 1 })

/-- DELETE `/api/comments/:id`: ownership-checked. -/
def deleteComment (uid : Nat) (r : Request) (db : DB) : Resp × DB :=
  let id := r.paramId
  match db.comments.find? (fun c => c.id == id && c.userId == uid) with
  | none => (⟨404, .err "评论不存在"⟩, db)
  | some _ => (⟨200, .okTrue⟩, { db with comments := db.comments.filter (fun c => !(c.id == id)) })

/-! ## Routing -/

/-- Every route registered on the Express app. -/
inductive Route where
  | register | login | files
  | upload
  | foldersGet | foldersPost | foldersDelete
  | tagsGet | tagsPost | tagsDelete
  | notesGet | notesTrash | notesRandom | notesStats | notesPost | notesPatch
  | notesTagsPut | notesLock | notesUnlock | notesRemoveLock | notesDelete
  | notesRestore | notesPermanent | notesVersions
  | commentsGet | commentsPost | commentsDelete
deriving DecidableEq, Repr

/-- The handler chain after `authenticate` has admitted user `uid`.  The
filesystem-only routes (`upload`, the static file service) and the aggregate
`stats` route are read-only on the relational state and their bodies are
elided as `other`. -/
def handleAuthed (route : Route) (uid : Nat) (r : Request) (now : Nat) (db : DB) : Resp × DB :=
  match route with
  | .upload => (⟨200, .other⟩, db)
  | .foldersGet => (⟨200, .jsonFolders (getFolders uid db)⟩, db)
  | .foldersPost => postFolder uid r db
  | .foldersDelete => deleteFolder uid r now db
  | .tagsGet => (⟨200, .jsonTags (getTags uid db)⟩, db)
  | .tagsPost => postTag uid r db
  | .tagsDelete => deleteTag uid r db
  | .notesGet => (⟨200, .jsonNotes (notesList uid db)⟩, db)
  | .notesTrash => (⟨200, .jsonNotes (trashList uid db)⟩, db)
  | .notesRandom => getRandomNote uid r db
  | .notesStats => (⟨200, .other⟩, db)
  | .notesPost => postNote uid r now db
  | .notesPatch => patchNote uid r now db
  | .notesTagsPut => putNoteTags uid r now db
  | .notesLock => lockNote uid r now db
  | .notesUnlock => unlockNote uid r db
  | .notesRemoveLock => removeLockNote uid r now db
  | .notesDelete => softDeleteNote uid r now db
  | .notesRestore => restoreNote uid r now db
  | .notesPermanent => permanentDeleteNote uid r db
  | .notesVersions => getVersions uid r db
  | .commentsGet => getComments uid r db
  | .commentsPost => postComment uid r now db
  | .commentsDelete => deleteComment uid r db
  | .register | .login | .files => (⟨200, .other⟩, db)

/-- Request dispatch: `/api/register`, `/api/login` and the `/api/files` static
service are mounted without `authenticate`; every other route runs the
middleware first and never reaches its handler on auth failure. -/
def dispatch (route : Route) (r : Request) (now : Nat) (db : DB) : Resp × DB :=
  match route with
  | .register => register r db
  | .login => login r db
  | .files => (⟨200, .other⟩, db)
  | rt =>
    match authenticate r.authHeader with
    | .fail msg => (⟨401, .err msg⟩, db)
    | .ok uid => handleAuthed rt uid r now db

/-! ## Client: debounced autosave (`App.tsx` `updateNote`)

`updateNote(field, value)` clears any pending `saveTimer` and schedules
`api.update(activeId, {[field]: value})` 500 ms later.  The model tracks the
pending timer (its deadline and payload) and the PATCH requests issued; a
pending timer whose deadline has passed by the time of the next event has
already fired. -/

structure Edit where
  t : Nat
  field : String
  value : String
deriving DecidableEq, Repr

structure ClientState where
  pending : Option (Nat × String × String)
  saves : List (Nat × String × String)
deriving DecidableEq, Repr

/-- Let a pending timer fire if its deadline is at or before time `t`. -/
def firePending (t : Nat) (st : ClientState) : ClientState :=
  match st.pending with
  | some (d, f, v) => if d ≤ t then ⟨none, st.saves ++ [(d, f, v)]⟩ else st
  | none => st

/-- One `updateNote` call at time `e.t`: any still-pending timer is cancelled
(`clearTimeout`) and a fresh 500 ms timer carrying this edit is started. -/
def updateNote (e : Edit) (st : ClientState) : ClientState :=
  let st1 := firePending e.t st
  ⟨some (e.t + 500, e.field, e.value), st1.saves⟩

/-- Run a burst of edits. -/
def runEdits (edits : List Edit) (st : ClientState) : ClientState :=
  edits.foldl (fun s e => updateNote e s) st

/-- After the burst ends, the surviving timer fires. -/
def flushClient (st : ClientState) : ClientState :=
  match st.pending with
  | some (d, f, v) => ⟨none, st.saves ++ [(d, f, v)]⟩
  | none => st

/-! ## Client: slash-command menu (`Editor.tsx`) -/

inductive SlashAction where
  | heading1 | heading2 | heading3 | bulletList | orderedList | taskList
  | blockquote | codeBlock | horizontalRule
deriving DecidableEq, Repr

structure SlashCommandItem where
  icon : String
  label : String
  desc : String
  act : SlashAction
deriving DecidableEq, Repr

/-- The `SLASH_COMMANDS` table. -/
def slashCommands : List SlashCommandItem :=
  [⟨"H₁", "标题 1", "大标题", .heading1⟩,
   ⟨"H₂", "标题 2", "中标题", .heading2⟩,
   ⟨"H₃", "标题 3", "小标题", .heading3⟩,
   ⟨"•", "无序列表", "项目符号列表", .bulletList⟩,
   ⟨"1.", "有序列表", "编号列表", .orderedList⟩,
   ⟨"☑", "任务列表", "复选框列表", .taskList⟩,
   ⟨"❝", "引用", "块引用", .blockquote⟩,
   ⟨"</>", "代码块", "代码片段", .codeBlock⟩,
   ⟨"—", "分割线", "水平分割", .horizontalRule⟩]

/-- JavaScript regex `\s` on the characters that can occur here. -/
def jsWhitespace (c : Char) : Bool :=
  c == ' ' || c == '\t' || c == '\n' || c == '\r'

/-- The character class `[^\s/]`. -/
def slashTokenChar (c : Char) : Bool := !(c == '/') && !(jsWhitespace c)

/-- `text.match(/\/([^\s\/]*)$/)` on a character list: the maximal trailing run
of `[^\s/]` characters, provided it is immediately preceded by `/`; returns
the captured group. -/
def slashMatchList (cs : List Char) : Option (List Char) :=
  let grp := cs.reverse.takeWhile slashTokenChar
  match cs.reverse.dropWhile slashTokenChar with
  | c :: _ => if c == '/' then some grp.reverse else none
  | [] => none

def slashMatchGroup (s : String) : Option String :=
  (slashMatchList s.data).map (fun g => String.mk g)

/-- The last `k` characters of `s` — the model of
`state.doc.textBetween(Math.max(0, from - k), from)`. -/
def lastChars (k : Nat) (s : String) : String :=
  String.mk (s.data.drop (s.data.length - k))

structure SlashState where
  slashOpen : Bool
  slashFilter : String
  slashIndex : Nat
deriving DecidableEq, Repr

/-- The slash-menu part of the editor's `onUpdate` handler, given the at most
20 characters of text before the caret. -/
def onUpdateSlash (textBefore : String) (st : SlashState) : SlashState :=
  match slashMatchGroup textBefore with
  | some g => ⟨true, g, 0⟩
  | none => if st.slashOpen then ⟨false, "", 0⟩ else st

/-- `label.toLowerCase().includes(filter.toLowerCase())`. -/
def labelMatches (filter : String) (c : SlashCommandItem) : Bool :=
  decide ((strToLower filter).data <:+: (strToLower c.label).data)

/-- `filteredCommands`. -/
def filteredCommands (filter : String) : List SlashCommandItem :=
  slashCommands.filter (labelMatches filter)

/-- The document around the caret: `before` is all text before the caret. -/
structure EditorDoc where
  before : String
  after : String
deriving DecidableEq, Repr

/-- `executeSlashCommand(index)`: bail out when the index misses the filtered
list; otherwise recompute the trailing slash match over the 20 characters
before the caret, delete exactly that range, and run the command's action. -/
def executeSlashCommand (doc : EditorDoc) (filter : String) (index : Nat)
    : Option (EditorDoc × SlashAction) :=
  match (filteredCommands filter).get? index with
  | none => none
  | some cmd =>
    let tb := lastChars 20 doc.before
    let doc1 :=
      match slashMatchGroup tb with
      | some g =>
        { doc with before := String.mk (doc.before.data.take (doc.before.data.length - (g.length + 1))) }
      | none => doc
    some (doc1, cmd.act)

/-! ## Concrete fixtures used by counterexamples and witnesses -/

def emptyDB : DB := ⟨[], [], [], [], [], [], 1⟩

/-- A note locked with password `pass`, owned by user 1. -/
def lockedNote : Note :=
  ⟨1, 1, "t", "secret", false, none, some (bcryptHash "pass"), none, 0, 0, []⟩

def lockedDB : DB := ⟨[], [lockedNote], [], [], [], [], 2⟩

/-- A locked note of user 1 that has been soft-deleted. -/
def trashedLockedNote : Note :=
  ⟨3, 1, "t3", "secret3", false, none, some (bcryptHash "pw33"), some 5, 1, 2, []⟩

def trashedDB : DB := ⟨[], [trashedLockedNote], [], [], [], [], 4⟩

/-- A plain unlocked live note of user 1 carrying a folder and tags. -/
def liveNote : Note :=
  ⟨6, 1, "keep", "body", false, some 2, none, none, 1, 1, [4, 5]⟩

def liveDB : DB := ⟨[], [liveNote], [⟨2, 1, "f", "#fff"⟩], [⟨4, 1, "a", "#aaa"⟩, ⟨5, 1, "b", "#bbb"⟩], [], [], 9⟩

/-- A live (not deleted) note of user 1 locked with password `pwL`. -/
def liveLockedNote : Note :=
  ⟨11, 1, "tl", "secretL", false, none, some (bcryptHash "pwL"), none, 1, 2, []⟩

def liveLockedDB : DB := ⟨[], [liveLockedNote], [], [], [], [], 12⟩

/-! # Theorems -/

/-! ## Shared helper lemmas -/

theorem find?_eq_some_of_unique {α : Type} (p : α → Bool) {l : List α} {x : α}
    (hx : x ∈ l) (hp : p x = true) (uniq : ∀ y ∈ l, p y = true → y = x) :
    l.find? p = some x := by
  induction l with
  | nil => cases hx
  | cons a tl ih =>
    by_cases ha : p a = true
    · have : a = x := uniq a (List.mem_cons_self a tl) ha
      subst this
      simp [List.find?, ha]
    · have hxtl : x ∈ tl := by
        rcases List.mem_cons.mp hx with h | h
        · exact absurd (h ▸ hp) ha
        · exact h
      have ha' : p a = false := by simpa using ha
      simp only [List.find?, ha']
      exact ih hxtl (fun y hy hpy => uniq y (List.mem_cons_of_mem a hy) hpy)

theorem versionLE_trans : ∀ (a b c : NoteVersion),
    versionLE a b → versionLE b c → versionLE a c := by
  intro a b c hab hbc
  simp only [versionLE, decide_eq_true_eq] at *
  omega

theorem versionLE_total : ∀ (a b : NoteVersion), versionLE a b || versionLE b a := by
  intro a b
  simp only [versionLE]
  by_cases h : a.createdAt ≤ b.createdAt
  · simp [h]
  · simp [h, Nat.le_of_not_le h]

theorem versionGE_trans : ∀ (a b c : NoteVersion),
    versionGE a b → versionGE b c → versionGE a c := by
  intro a b c hab hbc
  simp only [versionGE, decide_eq_true_eq] at *
  omega

theorem versionGE_total : ∀ (a b : NoteVersion), versionGE a b || versionGE b a := by
  intro a b
  simp only [versionGE]
  by_cases h : b.createdAt ≤ a.createdAt
  · simp [h]
  · simp [h, Nat.le_of_not_le h]

/-! ## C10 — register validation -/

/-- C10: POST `/api/register` responds 400 with a JSON error body if and only
if the username or password is missing (JavaScript-falsy: absent or empty),
the password is shorter than 4 characters, or the username already exists;
otherwise it creates the user with a bcrypt-hashed password and responds with
a signed token and the new user's id and username. -/
theorem register_validation :
    ∀ (r : Request) (db : DB),
      ((register r db).1.status = 400 ↔
        (strFalsy r.username = true ∨ strFalsy r.password = true ∨
         ((r.password).getD "").length < 4 ∨
         ∃ u ∈ db.users, u.username = (r.username).getD "")) ∧
      ((register r db).1.status = 400 →
        (∃ msg, (register r db).1.body = .err msg) ∧ (register r db).2 = db) ∧
      ((register r db).1.status ≠ 400 →
        register r db =
          (⟨200, .auth (jwtSign db.nextId) db.nextId ((r.username).getD "")⟩,
           { db with
             users := db.users ++ [⟨db.nextId, (r.username).getD "", bcryptHash ((r.password).getD "")⟩]
             nextId := db.nextId + 1 })) := by
  intro r db
  unfold register
  split_ifs with h1 h2 h3 <;>
    refine ⟨?_, ?_, ?_⟩ <;>
      simp_all [List.any_eq_true, Bool.or_eq_true] <;> tauto

/-- C10 witness: a 3-character password is rejected. -/
theorem register_validation_witness :
    (register { username := some "al", password := some "abc" } emptyDB).1.status = 400 :=
  ((register_validation { username := some "al", password := some "abc" } emptyDB).1).mpr
    (Or.inr (Or.inr (Or.inl (by decide))))

/-! ## C6 — bearer-token auth guard -/

/-- C6: every route other than register, login and the static file service
runs the `authenticate` middleware: whenever the middleware fails — exactly
when the Authorization header is missing, does not start with `Bearer `, or
carries a token that fails JWT verification — the server responds 401 with a
JSON error body and the state is unchanged. -/
theorem auth_guard :
    ∀ (rt : Route) (r : Request) (now : Nat) (db : DB) (msg : String),
      rt ≠ .register → rt ≠ .login → rt ≠ .files →
      (authenticate r.authHeader = .fail msg →
        dispatch rt r now db = (⟨401, .err msg⟩, db)) ∧
      (∀ h : Option String,
        (∃ m, authenticate h = .fail m) ↔
          (h = none ∨ ∃ s, h = some s ∧
            (strStartsWith s "Bearer " = false ∨ jwtVerify (headerToken s) = none))) := by
  intro rt r now db msg hreg hlog hfil
  constructor
  · intro hfail
    cases rt <;> simp_all [dispatch]
  · intro h
    constructor
    · rintro ⟨m, hm⟩
      match h with
      | none => exact Or.inl rfl
      | some s =>
        refine Or.inr ⟨s, rfl, ?_⟩
        by_cases hb : strStartsWith s "Bearer "
        · simp only [authenticate, hb, if_true] at hm
          cases hv : jwtVerify (headerToken s) with
          | none => exact Or.inr rfl
          | some uid => rw [hv] at hm; cases hm
        · exact Or.inl (by simpa using hb)
    · rintro (rfl | ⟨s, rfl, hs⟩)
      · exact ⟨"未登录", rfl⟩
      · rcases hs with hb | hv
        · exact ⟨"未登录", by simp [authenticate, hb]⟩
        · by_cases hb : strStartsWith s "Bearer "
          · exact ⟨"登录已过期", by simp [authenticate, hb, hv]⟩
          · exact ⟨"未登录", by simp [authenticate, hb]⟩

/-- C6 witness: a malformed header on GET `/api/notes` yields 401 and leaves
the database untouched. -/
theorem auth_guard_witness :
    dispatch .notesGet { authHeader := some "Token abc" } 0 lockedDB =
      (⟨401, .err "未登录"⟩, lockedDB) :=
  ((auth_guard .notesGet { authHeader := some "Token abc" } 0 lockedDB "未登录"
      (by decide) (by decide) (by decide)).1) (by decide)

/-! ## C8 — debounced autosave -/

/-- Inside a burst (each edit strictly less than 500 ms after the previous
one), the pending timer never fires: each `updateNote` call just replaces it. -/
theorem runEdits_burst (rest : List Edit) :
    ∀ (e : Edit) (saves : List (Nat × String × String)),
      List.Chain' (fun a b => a.t ≤ b.t ∧ b.t < a.t + 500) (e :: rest) →
      runEdits rest ⟨some (e.t + 500, e.field, e.value), saves⟩ =
        ⟨some ((rest.getLastD e).t + 500, (rest.getLastD e).field, (rest.getLastD e).value),
         saves⟩ := by
  induction rest with
  | nil => intro e saves _; rfl
  | cons a tl ih =>
    intro e saves hchain
    have hgap : e.t ≤ a.t ∧ a.t < e.t + 500 := (List.chain'_cons.mp hchain).1
    have htl : List.Chain' (fun a b => a.t ≤ b.t ∧ b.t < a.t + 500) (a :: tl) :=
      (List.chain'_cons.mp hchain).2
    have hfire : ¬ (e.t + 500 ≤ a.t) := by omega
    have step : updateNote a ⟨some (e.t + 500, e.field, e.value), saves⟩ =
        ⟨some (a.t + 500, a.field, a.value), saves⟩ := by
      simp [updateNote, firePending, hfire]
    show runEdits (a :: tl) _ = _
    rw [List.getLastD_cons]
    calc runEdits (a :: tl) ⟨some (e.t + 500, e.field, e.value), saves⟩
        = runEdits tl (updateNote a ⟨some (e.t + 500, e.field, e.value), saves⟩) := rfl
      _ = runEdits tl ⟨some (a.t + 500, a.field, a.value), saves⟩ := by rw [step]
      _ = _ := ih a saves htl

/-- C8: every `updateNote` call cancels the pending save timer and starts a
fresh 500 ms timer carrying its field and value; hence a burst of edits each
arriving less than 500 ms after the previous one issues exactly one PATCH
save, 500 ms after the last edit, with the last edit's field and value. -/
theorem debounce_last_edit_wins :
    (∀ (e : Edit) (st : ClientState),
      (updateNote e st).pending = some (e.t + 500, e.field, e.value)) ∧
    (∀ (e : Edit) (rest : List Edit),
      List.Chain' (fun a b => a.t ≤ b.t ∧ b.t < a.t + 500) (e :: rest) →
      flushClient (runEdits (e :: rest) ⟨none, []⟩) =
        ⟨none, [((rest.getLastD e).t + 500, (rest.getLastD e).field, (rest.getLastD e).value)]⟩) := by
  constructor
  · intro e st; rfl
  · intro e rest hchain
    have h0 : runEdits (e :: rest) (⟨none, []⟩ : ClientState) =
        runEdits rest ⟨some (e.t + 500, e.field, e.value), []⟩ := rfl
    rw [h0, runEdits_burst rest e [] hchain]
    rfl

/-- C8 witness: three rapid edits produce the single save
`(800, "title", "c")`. -/
theorem debounce_last_edit_wins_witness :
    flushClient (runEdits [⟨0, "title", "a"⟩, ⟨100, "title", "b"⟩, ⟨300, "title", "c"⟩] ⟨none, []⟩) =
      ⟨none, [(800, "title", "c")]⟩ :=
  debounce_last_edit_wins.2 ⟨0, "title", "a"⟩ [⟨100, "title", "b"⟩, ⟨300, "title", "c"⟩]
    (List.chain'_cons.mpr ⟨⟨by decide, by decide⟩,
      List.chain'_cons.mpr ⟨⟨by decide, by decide⟩, List.chain'_singleton _⟩⟩)

/-! ## C3 — the PATCH lock check (code bug) -/

/-- C3 failing input: the note is locked with password `pass`, yet a PATCH
carrying `title` and no `unlockPassword` at all succeeds with 200 and rewrites
the locked note — the handler's own comment says a locked note requires the
password to edit, but the guard only runs when an `unlockPassword` is
supplied. -/
theorem patch_lock_bypass :
    (patchNote 1 { paramId := 1, title := some "hacked" } 9 lockedDB).1.status = 200 ∧
    ∃ n ∈ (patchNote 1 { paramId := 1, title := some "hacked" } 9 lockedDB).2.notes,
      n.id = 1 ∧ n.title = "hacked" ∧ n.lockPassword = some (bcryptHash "pass") := by
  decide

/-! ## C7 — handlers do enforce invariants (spec corrected) -/

/-- C7 counterexample: POST `/api/folders` with a whitespace-only name is
rejected by the route handler itself with 400 — a non-empty-name requirement
enforced outside the database layer, contradicting the claim that route
handlers impose no data invariant beyond what the ORM and database enforce. -/
theorem folder_name_invariant_cx :
    postFolder 1 { name := some " " } emptyDB = (⟨400, .err "文件夹名不能为空"⟩, emptyDB) := by
  decide

/-- C7 amended: the route handlers do enforce data invariants of their own:
POST `/api/folders` responds 400 (state unchanged) exactly when the folder
name is absent or trims to empty, and POST `/api/notes/:id/lock` responds 400
(state unchanged) when the supplied lock password has fewer than 4 characters
(register enforces the same minimum, and PATCH caps versions at 50). -/
theorem handlers_do_validate :
    ∀ (uid : Nat) (r : Request) (db : DB) (now : Nat),
      (nameBlank r.name = true →
        postFolder uid r db = (⟨400, .err "文件夹名不能为空"⟩, db)) ∧
      (nameBlank r.name = false → (postFolder uid r db).1.status = 200) ∧
      (∀ note, db.notes.find? (fun n => n.id == r.paramId && n.userId == uid) = some note →
        ((r.password).getD "").length < 4 →
        lockNote uid r now db = (⟨400, .err "密码至少4位"⟩, db)) := by
  intro uid r db now
  refine ⟨?_, ?_, ?_⟩
  · intro hb; simp [postFolder, hb]
  · intro hb; simp [postFolder, hb]
  · intro note hfind hlen
    have hc : (strFalsy r.password || decide (((r.password).getD "").length < 4)) = true := by
      simp [hlen]
    simp [lockNote, hfind, hc]

/-- C7 amended witness: the empty password is rejected on a concrete locked
note. -/
theorem handlers_do_validate_witness :
    lockNote 1 { paramId := 1, password := some "ab" } 3 lockedDB =
      (⟨400, .err "密码至少4位"⟩, lockedDB) :=
  (handlers_do_validate 1 { paramId := 1, password := some "ab" } lockedDB 3).2.2
    lockedNote (by decide) (by decide)

/-! ## C1 — locked-note sanitization across note-returning endpoints -/

/-- C1 counterexample: GET `/api/notes/trash` serializes a locked note raw —
the response carries its full content `secret3` and the stored `lockPassword`
hash, and no `locked: true` flag, without any unlock step. -/
theorem trash_leaks_locked_cx :
    ∃ v ∈ trashList 1 trashedDB,
      v.content = "secret3" ∧ v.lockPassword = some (bcryptHash "pw33") ∧
      v.locked ≠ some true := by
  have h : trashList 1 trashedDB = [rawView trashedLockedNote] := by
    simp [trashList, trashedDB, trashedLockedNote]
  rw [h]
  exact ⟨rawView trashedLockedNote, List.mem_singleton_self _, by decide⟩

/-- C1 amended: GET `/api/notes` and GET `/api/notes/random` return only
sanitized views — every locked note comes back with `locked = true`, its
content replaced by the empty string, and without the stored `lockPassword`
hash (and every live note of the caller does appear in GET `/api/notes`,
sanitized this way) — and POST `/api/notes/:id/unlock` returns the full
content exactly on the correct password (403 on a wrong one); but GET
`/api/notes/trash` serializes the stored rows raw, so a locked note in the
trash is returned with its full content and its `lockPassword` hash and no
`locked` flag. -/
theorem lock_sanitization :
    ∀ (uid : Nat) (db : DB) (r : Request) (note : Note) (hash : String),
      (∀ v ∈ notesList uid db, ∃ m ∈ db.notes,
        m.userId = uid ∧ m.deletedAt = none ∧ v = sanitizedView m ∧
        v.lockPassword = none ∧
        (m.lockPassword ≠ none → v.locked = some true ∧ v.content = "")) ∧
      (note ∈ db.notes → note.userId = uid → note.deletedAt = none →
        sanitizedView note ∈ notesList uid db ∧
        (note.lockPassword ≠ none →
          (sanitizedView note).locked = some true ∧
          (sanitizedView note).content = "" ∧
          (sanitizedView note).lockPassword = none)) ∧
      (∀ v, (getRandomNote uid r db).1.body = .jsonNote v →
        ∃ m ∈ db.notes, v = sanitizedView m ∧ v.lockPassword = none ∧
          (m.lockPassword ≠ none → v.locked = some true ∧ v.content = "")) ∧
      (note ∈ db.notes → note.userId = uid → note.deletedAt ≠ none →
        rawView note ∈ trashList uid db) ∧
      (db.notes.find? (fun n => n.id == r.paramId && n.userId == uid) = some note →
        note.lockPassword = some hash →
        (bcryptCompare ((r.password).getD "") hash = true →
          unlockNote uid r db =
            (⟨200, .jsonNote { rawView note with locked := some true, lockPassword := none }⟩, db)) ∧
        (bcryptCompare ((r.password).getD "") hash = false →
          unlockNote uid r db = (⟨403, .err "密码错误"⟩, db))) := by
  intro uid db r note hash
  have hsanit : ∀ m : Note, m.lockPassword ≠ none →
      (sanitizedView m).locked = some true ∧ (sanitizedView m).content = "" ∧
      (sanitizedView m).lockPassword = none := by
    intro m hl
    have hsome : m.lockPassword.isSome = true := by
      cases hmlp : m.lockPassword with
      | none => exact absurd hmlp hl
      | some sk => rfl
    simp [sanitizedView, rawView, hsome]
  refine ⟨?_, ?_, ?_, ?_, ?_⟩
  · intro v hv
    simp only [notesList, List.mem_map] at hv
    obtain ⟨m, hms, rfl⟩ := hv
    have hmf := List.mem_filter.mp (List.mem_mergeSort.mp hms)
    obtain ⟨hmem, hq⟩ := hmf
    simp only [Bool.and_eq_true, beq_iff_eq] at hq
    refine ⟨m, hmem, hq.1, hq.2, rfl, rfl, ?_⟩
    intro hl
    exact ⟨(hsanit m hl).1, (hsanit m hl).2.1⟩
  · intro hmem huid hdel
    refine ⟨?_, hsanit note⟩
    have hfil : note ∈ db.notes.filter (fun n => n.userId == uid && n.deletedAt == none) := by
      refine List.mem_filter.mpr ⟨hmem, ?_⟩
      simp [huid, hdel]
    exact List.mem_map_of_mem sanitizedView (List.mem_mergeSort.mpr hfil)
  · intro v hv
    unfold getRandomNote at hv
    split at hv
    · simp at hv
    · simp only [] at hv
      split at hv
      · simp at hv
      · split at hv
        · simp at hv
        · rename_i m hfind
          have hveq : v = sanitizedView m := by
            simp at hv
            exact hv.symm
          refine ⟨m, List.mem_of_find?_eq_some hfind, hveq, by rw [hveq]; rfl, ?_⟩
          intro hl
          rw [hveq]
          exact ⟨(hsanit m hl).1, (hsanit m hl).2.1⟩
  · intro hmem huid hdel
    have hfil : note ∈ db.notes.filter (fun n => n.userId == uid && !(n.deletedAt == none)) := by
      refine List.mem_filter.mpr ⟨hmem, ?_⟩
      simp [huid, hdel]
    have hms : note ∈ (db.notes.filter
        (fun n => n.userId == uid && !(n.deletedAt == none))).mergeSort trashLE :=
      List.mem_mergeSort.mpr hfil
    exact List.mem_map_of_mem rawView hms
  · intro hfind hlock
    constructor
    · intro hok
      simp [unlockNote, hfind, hlock, hok]
    · intro hbad
      simp [unlockNote, hfind, hlock, hbad]

/-- C1 amended witness: a live locked note is served by GET `/api/notes` with
`locked = true`, empty content and no hash; a locked trashed note is served
raw by the trash route; and the unlock route refuses a wrong password. -/
theorem lock_sanitization_witness :
    (sanitizedView liveLockedNote ∈ notesList 1 liveLockedDB ∧
      (sanitizedView liveLockedNote).locked = some true ∧
      (sanitizedView liveLockedNote).content = "" ∧
      (sanitizedView liveLockedNote).lockPassword = none) ∧
    rawView trashedLockedNote ∈ trashList 1 trashedDB ∧
    unlockNote 1 { paramId := 3, password := some "wrong" } trashedDB =
      (⟨403, .err "密码错误"⟩, trashedDB) := by
  have h1 := lock_sanitization 1 liveLockedDB {} liveLockedNote (bcryptHash "pwL")
  have h2 := lock_sanitization 1 trashedDB { paramId := 3, password := some "wrong" }
    trashedLockedNote (bcryptHash "pw33")
  have hb := h1.2.1 (by decide) (by decide) (by decide)
  have hp := hb.2 (by decide)
  exact ⟨⟨hb.1, hp.1, hp.2.1, hp.2.2⟩,
         h2.2.2.2.1 (by decide) (by decide) (by decide),
         (h2.2.2.2.2 (by decide) (by decide)).2 (by decide)⟩

/-! ## C2 — which endpoints check record ownership -/

theorem find?_exists_of_mem {α : Type} {p : α → Bool} {l : List α} {x : α}
    (hx : x ∈ l) (hp : p x = true) : ∃ m, l.find? p = some m := by
  have h : (l.find? p).isSome = true := List.find?_isSome.mpr ⟨x, hx, hp⟩
  cases hf : l.find? p with
  | none => rw [hf] at h; cases h
  | some m => exact ⟨m, rfl⟩

/-- C2: PATCH, restore, permanent delete, the versions listing and the comment
endpoints answer 404 and leave the state unchanged when the record with the
given id does not belong to the authenticated user, while soft delete, the
tag assignment PUT, tag delete and folder delete act on any existing id —
even one owned by a different user — without an ownership check. -/
theorem ownership_guard :
    ∀ (db : DB) (uid now : Nat) (r : Request),
      (db.notes.find? (fun n => n.id == r.paramId && n.userId == uid) = none →
        patchNote uid r now db = (⟨404, .err "笔记不存在"⟩, db) ∧
        restoreNote uid r now db = (⟨404, .err "笔记不存在"⟩, db) ∧
        permanentDeleteNote uid r db = (⟨404, .err "笔记不存在"⟩, db) ∧
        getVersions uid r db = (⟨404, .err "笔记不存在"⟩, db) ∧
        getComments uid r db = (⟨404, .err "笔记不存在"⟩, db) ∧
        postComment uid r now db = (⟨404, .err "笔记不存在"⟩, db)) ∧
      (db.comments.find? (fun c => c.id == r.paramId && c.userId == uid) = none →
        deleteComment uid r db = (⟨404, .err "评论不存在"⟩, db)) ∧
      (∀ n ∈ db.notes, n.id = r.paramId → n.userId ≠ uid →
        ((softDeleteNote uid r now db).1 = ⟨200, .okTrue⟩ ∧
          ∃ n' ∈ (softDeleteNote uid r now db).2.notes,
            n'.id = r.paramId ∧ n'.deletedAt = some now) ∧
        ((putNoteTags uid r now db).1.status = 200 ∧
          ∃ n' ∈ (putNoteTags uid r now db).2.notes,
            n'.id = r.paramId ∧ n'.tagIds = r.tagIds)) ∧
      (∀ t ∈ db.tags, t.id = r.paramId → t.userId ≠ uid →
        (deleteTag uid r db).1 = ⟨200, .okTrue⟩ ∧
        ∀ t' ∈ (deleteTag uid r db).2.tags, t'.id ≠ r.paramId) ∧
      (∀ f ∈ db.folders, f.id = r.paramId → f.userId ≠ uid →
        (deleteFolder uid r now db).1 = ⟨200, .okTrue⟩ ∧
        ∀ f' ∈ (deleteFolder uid r now db).2.folders, f'.id ≠ r.paramId) := by
  intro db uid now r
  refine ⟨?_, ?_, ?_, ?_, ?_⟩
  · intro hnone
    refine ⟨?_, ?_, ?_, ?_, ?_, ?_⟩ <;>
      simp [patchNote, restoreNote, permanentDeleteNote, getVersions, getComments,
            postComment, hnone]
  · intro hnone
    simp [deleteComment, hnone]
  · intro n hmem hid huser
    have hfind : ∃ m, db.notes.find? (fun m => m.id == r.paramId) = some m :=
      find?_exists_of_mem hmem (by simp [hid])
    obtain ⟨m, hm⟩ := hfind
    constructor
    · refine ⟨by simp [softDeleteNote, hm], ?_⟩
      refine ⟨{ n with deletedAt := some now, updatedAt := now }, ?_, by simp [hid], rfl⟩
      have := List.mem_map_of_mem
        (fun (x : Note) => if x.id == r.paramId then
          { x with deletedAt := some now, updatedAt := now } else x) hmem
      simpa [softDeleteNote, hm, hid] using this
    · refine ⟨by simp [putNoteTags, hm], ?_⟩
      refine ⟨{ n with tagIds := r.tagIds, updatedAt := now }, ?_, by simp [hid], rfl⟩
      have := List.mem_map_of_mem
        (fun (x : Note) => if x.id == r.paramId then
          { x with tagIds := r.tagIds, updatedAt := now } else x) hmem
      simpa [putNoteTags, hm, hid] using this
  · intro t hmem hid huser
    have hfind : ∃ m, db.tags.find? (fun m => m.id == r.paramId) = some m :=
      find?_exists_of_mem hmem (by simp [hid])
    obtain ⟨m, hm⟩ := hfind
    refine ⟨by simp [deleteTag, hm], ?_⟩
    intro t' ht'
    simp only [deleteTag, hm] at ht'
    have := (List.mem_filter.mp ht').2
    simpa using this
  · intro f hmem hid huser
    have hfind : ∃ m, db.folders.find? (fun m => m.id == r.paramId) = some m :=
      find?_exists_of_mem hmem (by simp [hid])
    obtain ⟨m, hm⟩ := hfind
    refine ⟨by simp [deleteFolder, hm], ?_⟩
    intro f' hf'
    simp only [deleteFolder, hm] at hf'
    have := (List.mem_filter.mp hf').2
    simpa using this

/-- C2 witness: user 2's request soft-deletes user 1's note, while user 2's
PATCH on the same note is refused with 404 and changes nothing. -/
theorem ownership_guard_witness :
    ((softDeleteNote 2 { paramId := 6 } 8 liveDB).1 = ⟨200, .okTrue⟩ ∧
      ∃ n' ∈ (softDeleteNote 2 { paramId := 6 } 8 liveDB).2.notes,
        n'.id = 6 ∧ n'.deletedAt = some 8) ∧
    patchNote 2 { paramId := 6 } 8 liveDB = (⟨404, .err "笔记不存在"⟩, liveDB) := by
  have h := ownership_guard liveDB 2 8 { paramId := 6 }
  exact ⟨(h.2.2.1 liveNote (by decide) (by decide) (by decide)).1,
         (h.1 (by decide)).1⟩

/-! ## C5 — soft delete / restore round trip -/

/-- C5: soft-deleting a live note sets `deletedAt` (the row survives), after
which the note is gone from GET `/api/notes` and listed in GET
`/api/notes/trash`; restoring it clears `deletedAt` again and the note
reappears in GET `/api/notes` with title, content, folder and tags unchanged. -/
theorem soft_delete_restore_roundtrip :
    ∀ (db : DB) (uid tDel tRes : Nat) (r : Request) (note : Note),
      (db.notes.map (fun n => n.id)).Nodup →
      note ∈ db.notes → r.paramId = note.id → note.userId = uid →
      note.deletedAt = none →
      ((softDeleteNote uid r tDel db).1 = ⟨200, .okTrue⟩) ∧
      (∀ v ∈ notesList uid (softDeleteNote uid r tDel db).2, v.id ≠ note.id) ∧
      (∃ v ∈ trashList uid (softDeleteNote uid r tDel db).2,
        v.id = note.id ∧ v.deletedAt = some tDel) ∧
      ((restoreNote uid r tRes (softDeleteNote uid r tDel db).2).1 =
        ⟨200, .jsonNote (rawView { note with deletedAt := none, updatedAt := tRes })⟩) ∧
      (∃ n' ∈ (restoreNote uid r tRes (softDeleteNote uid r tDel db).2).2.notes,
        n'.id = note.id ∧ n'.deletedAt = none ∧ n'.title = note.title ∧
        n'.content = note.content ∧ n'.folderId = note.folderId ∧
        n'.tagIds = note.tagIds) ∧
      (∃ v ∈ notesList uid (restoreNote uid r tRes (softDeleteNote uid r tDel db).2).2,
        v.id = note.id ∧ v.title = note.title ∧ v.tagIds = note.tagIds) := by
  intro db uid tDel tRes r note hnd hmem hid huid hdel
  obtain ⟨m0, hm0⟩ : ∃ m, db.notes.find? (fun n => n.id == r.paramId) = some m :=
    find?_exists_of_mem hmem (by simp [hid])
  set f : Note → Note := fun x =>
    if x.id == r.paramId then { x with deletedAt := some tDel, updatedAt := tDel } else x
    with hf
  have hstep1 : (softDeleteNote uid r tDel db).2 = { db with notes := db.notes.map f } := by
    simp [softDeleteNote, hm0, hf]
  have hfnote : f note = { note with deletedAt := some tDel, updatedAt := tDel } := by
    simp [hf, hid]
  have hmem1 : f note ∈ (softDeleteNote uid r tDel db).2.notes := by
    rw [hstep1]
    exact List.mem_map_of_mem f hmem
  have hfind2 : (softDeleteNote uid r tDel db).2.notes.find?
      (fun n => n.id == r.paramId && n.userId == uid) = some (f note) := by
    refine find?_eq_some_of_unique _ hmem1 (by simp [hfnote, hid, huid]) ?_
    intro y hy hpy
    rw [hstep1] at hy
    obtain ⟨x, hx, rfl⟩ := List.mem_map.mp hy
    by_cases hxid : (x.id == r.paramId) = true
    · have hxeq : x = note :=
        List.inj_on_of_nodup_map hnd hx hmem (by rw [beq_iff_eq.mp hxid, hid])
      rw [hxeq]
    · have hfx : f x = x := by
        simp only [hf]
        rw [if_neg hxid]
      rw [hfx] at hpy
      simp only [Bool.and_eq_true] at hpy
      exact absurd hpy.1 hxid
  refine ⟨by simp [softDeleteNote, hm0], ?_, ?_, ?_, ?_, ?_⟩
  · intro v hv
    rw [hstep1] at hv
    simp only [notesList, List.mem_map, List.mem_mergeSort, List.mem_filter] at hv
    obtain ⟨m, ⟨hmmap, hq⟩, rfl⟩ := hv
    obtain ⟨x, hx, rfl⟩ := hmmap
    by_cases hxid : (x.id == r.paramId) = true
    · exfalso
      have heq : x.id = r.paramId := beq_iff_eq.mp hxid
      simp [hf, heq] at hq
    · have hfx : f x = x := by
        simp only [hf]
        rw [if_neg hxid]
      rw [hfx]
      intro hcontra
      have : (sanitizedView x).id = x.id := by simp [sanitizedView, rawView]
      rw [this] at hcontra
      rw [← hid] at hcontra
      simp [hcontra] at hxid
  · refine ⟨rawView (f note), ?_, by simp [hfnote, rawView], by simp [hfnote, rawView]⟩
    rw [hstep1]
    refine List.mem_map_of_mem rawView (List.mem_mergeSort.mpr (List.mem_filter.mpr
      ⟨List.mem_map_of_mem f hmem, ?_⟩))
    simp [hfnote, huid]
  · simp [restoreNote, hfind2, hfnote]
  · refine ⟨{ note with deletedAt := none, updatedAt := tRes }, ?_, by simp, rfl, rfl,
      rfl, rfl, rfl⟩
    have : { note with deletedAt := (none : Option Nat), updatedAt := tRes } =
        (fun (x : Note) => if x.id == r.paramId then
          { x with deletedAt := none, updatedAt := tRes } else x) (f note) := by
      simp [hfnote, hid]
    rw [this]
    simp only [restoreNote, hfind2]
    exact List.mem_map_of_mem _ hmem1
  · refine ⟨sanitizedView { note with deletedAt := none, updatedAt := tRes }, ?_,
      by simp [sanitizedView, rawView], by simp [sanitizedView, rawView],
      by simp [sanitizedView, rawView]⟩
    simp only [notesList]
    refine List.mem_map_of_mem sanitizedView (List.mem_mergeSort.mpr (List.mem_filter.mpr
      ⟨?_, by simp [huid]⟩))
    have : { note with deletedAt := (none : Option Nat), updatedAt := tRes } =
        (fun (x : Note) => if x.id == r.paramId then
          { x with deletedAt := none, updatedAt := tRes } else x) (f note) := by
      simp [hfnote, hid]
    rw [this]
    simp only [restoreNote, hfind2]
    exact List.mem_map_of_mem _ hmem1

/-- C5 witness: the round trip on a concrete live note with folder and tags. -/
theorem soft_delete_restore_roundtrip_witness :
    (∀ v ∈ notesList 1 (softDeleteNote 1 { paramId := 6 } 7 liveDB).2, v.id ≠ 6) ∧
    (∃ n' ∈ (restoreNote 1 { paramId := 6 } 8 (softDeleteNote 1 { paramId := 6 } 7 liveDB).2).2.notes,
      n'.id = 6 ∧ n'.deletedAt = none ∧ n'.title = "keep" ∧ n'.content = "body" ∧
      n'.folderId = some 2 ∧ n'.tagIds = [4, 5]) := by
  have h := soft_delete_restore_roundtrip liveDB 1 7 8 { paramId := 6 } liveNote
    (by decide) (by decide) (by decide) (by decide) (by decide)
  exact ⟨h.2.1, h.2.2.2.2.1⟩

/-! ## C9 — slash-command menu -/

theorem take_of_append_eq {α : Type} {l P s : List α} (h : l = P ++ s) :
    l.take (l.length - s.length) = P := by
  subst h
  rw [List.length_append, Nat.add_sub_cancel]
  exact List.take_left P s

/-- A successful `slashMatchList` splits the text as `prefix ++ '/' :: group`,
the group being the maximal trailing run of `[^\s/]` characters. -/
theorem slashMatchList_decomp (cs g : List Char) (h : slashMatchList cs = some g) :
    cs = cs.take (cs.length - (g.length + 1)) ++ '/' :: g := by
  unfold slashMatchList at h
  cases hrest : cs.reverse.dropWhile slashTokenChar with
  | nil => rw [hrest] at h; cases h
  | cons c tl =>
    rw [hrest] at h
    have h' : (if (c == '/') = true then
        some (cs.reverse.takeWhile slashTokenChar).reverse else none) = some g := h
    by_cases hc : (c == '/') = true
    · rw [if_pos hc] at h'
      have hg : (cs.reverse.takeWhile slashTokenChar).reverse = g := Option.some.inj h'
      have hc' : c = '/' := beq_iff_eq.mp hc
      have hrev : cs.reverse = cs.reverse.takeWhile slashTokenChar ++ (c :: tl) := by
        rw [← hrest]
        exact (List.takeWhile_append_dropWhile slashTokenChar cs.reverse).symm
      have hcs : cs = tl.reverse ++ '/' :: g := by
        have h2 := congrArg List.reverse hrev
        rw [List.reverse_reverse, List.reverse_append, List.reverse_cons,
            List.append_assoc, List.singleton_append, hc', hg] at h2
        exact h2
      have ht : cs.take (cs.length - (g.length + 1)) = tl.reverse := by
        have h3 := take_of_append_eq hcs
        simpa using h3
      rw [ht]
      exact hcs
    · rw [if_neg hc] at h'; cases h'

/-- C9: after every editor update the slash menu is open exactly when the at
most 20 characters before the caret match `/\/([^\s\/]*)$/`; the captured
group becomes the filter, which selects by case-insensitive substring over the
nine command labels; and executing a selected command deletes exactly the
matched `/`-prefixed text before running the command's action. -/
theorem slash_command_spec :
    ∀ (docBefore : String) (st : SlashState) (doc : EditorDoc) (filter : String)
      (i : Nat) (g : String) (cmd : SlashCommandItem),
      ((onUpdateSlash (lastChars 20 docBefore) st).slashOpen = true ↔
        (slashMatchGroup (lastChars 20 docBefore)).isSome = true) ∧
      (slashMatchGroup (lastChars 20 docBefore) = some g →
        (onUpdateSlash (lastChars 20 docBefore) st).slashFilter = g ∧
        (onUpdateSlash (lastChars 20 docBefore) st).slashIndex = 0) ∧
      (slashCommands.length = 9) ∧
      (∀ c, c ∈ filteredCommands filter ↔
        c ∈ slashCommands ∧ (strToLower filter).data <:+: (strToLower c.label).data) ∧
      ((filteredCommands filter).get? i = some cmd →
        slashMatchGroup (lastChars 20 doc.before) = some g →
        ∃ pre : String, doc.before = pre ++ "/" ++ g ∧
          executeSlashCommand doc filter i = some ({ doc with before := pre }, cmd.act)) := by
  intro docBefore st doc filter i g cmd
  refine ⟨?_, ?_, rfl, ?_, ?_⟩
  · cases hm : slashMatchGroup (lastChars 20 docBefore) with
    | none =>
      by_cases hst : st.slashOpen = true
      · simp [onUpdateSlash, hm, hst]
      · simp only [Bool.not_eq_true] at hst
        simp [onUpdateSlash, hm, hst]
    | some gg => simp [onUpdateSlash, hm]
  · intro hg
    simp [onUpdateSlash, hg]
  · intro c
    simp [filteredCommands, labelMatches, List.mem_filter]
  · intro hget hmatch
    obtain ⟨gl, hgl, rfl⟩ :
        ∃ gl, slashMatchList (lastChars 20 doc.before).data = some gl ∧ g = String.mk gl := by
      unfold slashMatchGroup at hmatch
      cases hl : slashMatchList (lastChars 20 doc.before).data with
      | none => rw [hl] at hmatch; cases hmatch
      | some gl0 => rw [hl] at hmatch; exact ⟨gl0, rfl, (Option.some.inj hmatch).symm⟩
    have htbd : (lastChars 20 doc.before).data =
        doc.before.data.drop (doc.before.data.length - 20) := rfl
    have hdecomp := slashMatchList_decomp _ _ hgl
    rw [htbd] at hdecomp
    have hbd : doc.before.data =
        (doc.before.data.take (doc.before.data.length - 20) ++
          ((doc.before.data.drop (doc.before.data.length - 20)).take
            ((doc.before.data.drop (doc.before.data.length - 20)).length - (gl.length + 1)))) ++
        '/' :: gl := by
      calc doc.before.data
          = doc.before.data.take (doc.before.data.length - 20) ++
              doc.before.data.drop (doc.before.data.length - 20) :=
            (List.take_append_drop _ _).symm
        _ = doc.before.data.take (doc.before.data.length - 20) ++
              (((doc.before.data.drop (doc.before.data.length - 20)).take
                ((doc.before.data.drop (doc.before.data.length - 20)).length - (gl.length + 1))) ++
               '/' :: gl) :=
            congrArg (fun x => doc.before.data.take (doc.before.data.length - 20) ++ x) hdecomp
        _ = _ := (List.append_assoc _ _ _).symm
    have htake : doc.before.data.take (doc.before.data.length - (gl.length + 1)) =
        doc.before.data.take (doc.before.data.length - 20) ++
          ((doc.before.data.drop (doc.before.data.length - 20)).take
            ((doc.before.data.drop (doc.before.data.length - 20)).length - (gl.length + 1))) := by
      have h4 := take_of_append_eq hbd
      simpa using h4
    refine ⟨String.mk (doc.before.data.take (doc.before.data.length - (gl.length + 1))), ?_, ?_⟩
    · apply String.ext
      simp only [String.data_append]
      show doc.before.data =
        doc.before.data.take (doc.before.data.length - (gl.length + 1)) ++ ['/'] ++ gl
      rw [htake, List.append_assoc, List.singleton_append]
      exact hbd
    · simp only [executeSlashCommand, hget]
      rw [show slashMatchGroup (lastChars 20 doc.before) = some (String.mk gl) by
        unfold slashMatchGroup; rw [hgl]; rfl]
      rfl

/-- C9 witness: in `"note /hea"` the menu opens with filter `hea`; no label
contains `hea`, while filter `标题` keeps the three heading commands; and
executing the first command on filter `""` deletes exactly `/hea`. -/
theorem slash_command_spec_witness :
    (onUpdateSlash (lastChars 20 "note /hea") ⟨false, "", 0⟩).slashOpen = true ∧
    (onUpdateSlash (lastChars 20 "note /hea") ⟨false, "", 0⟩).slashFilter = "hea" ∧
    executeSlashCommand ⟨"note /hea", ""⟩ "" 0 =
      some (⟨"note ", ""⟩, SlashAction.heading1) := by
  have h := slash_command_spec "note /hea" ⟨false, "", 0⟩ ⟨"note /hea", ""⟩ "" 0 "hea"
    ⟨"H₁", "标题 1", "大标题", .heading1⟩
  refine ⟨h.1.mpr (by decide), (h.2.1 (by decide)).1, ?_⟩
  obtain ⟨pre, hpre, hex⟩ := h.2.2.2.2 (by decide) (by decide)
  have : pre = "note " := by
    have := congrArg String.data hpre
    simp only [String.data_append] at this
    apply String.ext
    have h2 : ("note /hea" : String).data = pre.data ++ ['/', 'h', 'e', 'a'] := by
      simpa using this
    have h3 : ("note /hea" : String).data = ("note " : String).data ++ ['/', 'h', 'e', 'a'] := by
      decide
    rw [h3] at h2
    exact (List.append_cancel_right h2).symm
  rw [this] at hex
  exact hex

/-! ## C4 — version snapshots and the 50-version cap -/

theorem filter_comm' {α : Type} (p q : α → Bool) (l : List α) :
    (l.filter p).filter q = (l.filter q).filter p := by
  induction l with
  | nil => rfl
  | cons a tl ih =>
    by_cases hp : p a = true <;> by_cases hq : q a = true <;>
      simp [List.filter_cons, hp, hq, ih]

/-- The trim step of the version cap: with distinct ids, filtering out the ids
of the first `k` elements of the sorted list keeps exactly `length - k`
elements, every removed element is no newer than every kept one, and any
element whose id escapes the removal set survives. -/
theorem trim_spec (L : List NoteVersion) (k : Nat) (hk : k ≤ L.length)
    (hnd : (L.map (fun v => v.id)).Nodup) :
    (L.filter (fun v =>
      !(decide (v.id ∈ ((L.mergeSort versionLE).take k).map (fun v => v.id))))).length
        = L.length - k ∧
    (∀ v ∈ L,
      v ∉ L.filter (fun v =>
        !(decide (v.id ∈ ((L.mergeSort versionLE).take k).map (fun v => v.id)))) →
      ∀ w ∈ L.filter (fun v =>
        !(decide (v.id ∈ ((L.mergeSort versionLE).take k).map (fun v => v.id)))),
        versionLE v w = true) ∧
    (∀ v ∈ L, v.id ∉ ((L.mergeSort versionLE).take k).map (fun v => v.id) →
      v ∈ L.filter (fun v =>
        !(decide (v.id ∈ ((L.mergeSort versionLE).take k).map (fun v => v.id))))) := by
  set S := L.mergeSort versionLE with hS
  set R := (S.take k).map (fun v => v.id) with hR
  set p : NoteVersion → Bool := fun v => !(decide (v.id ∈ R)) with hp
  have hperm : List.Perm S L := List.mergeSort_perm L versionLE
  have hndS : (S.map (fun v => v.id)).Nodup := ((hperm.map _).nodup_iff).mpr hnd
  have hinj := List.inj_on_of_nodup_map hndS
  have hSnd : S.Nodup := List.Nodup.of_map _ hndS
  have hsplit : S.take k ++ S.drop k = S := List.take_append_drop k S
  have hdisj : ∀ a, a ∈ S.take k → a ∈ S.drop k → False := by
    have hnd2 := hSnd
    rw [← hsplit] at hnd2
    intro a h1 h2
    exact (List.disjoint_of_nodup_append hnd2) h1 h2
  have hdropmem : ∀ w ∈ S.drop k, p w = true := by
    intro w hw
    rw [hp]
    simp only [Bool.not_eq_true', decide_eq_false_iff_not]
    intro hwid
    obtain ⟨u, hu, huid⟩ := List.mem_map.mp hwid
    have huw : u = w := hinj (List.take_subset _ _ hu) (List.drop_subset _ _ hw) huid
    exact hdisj w (huw ▸ hu) hw
  have htakemem : ∀ u ∈ S.take k, p u = false := by
    intro u hu
    have hmem : u.id ∈ R := List.mem_map_of_mem _ hu
    rw [hp]
    simp [hmem]
  have hfiltS : S.filter p = S.drop k := by
    conv => lhs; rw [← hsplit]
    rw [List.filter_append]
    rw [List.filter_eq_nil_iff.mpr (fun a ha => by simp [htakemem a ha]),
        List.filter_eq_self.mpr hdropmem]
    rfl
  have hpermF : List.Perm (L.filter p) (S.drop k) := by
    rw [← hfiltS]
    exact (hperm.filter p).symm
  refine ⟨?_, ?_, ?_⟩
  · rw [hpermF.length_eq, List.length_drop, ← hperm.length_eq]
  · intro v hv hvk w hw
    have hpv : p v = false := by
      by_cases h : p v = true
      · exact absurd (List.mem_filter.mpr ⟨hv, h⟩) hvk
      · simpa using h
    have hvidR : v.id ∈ R := by
      rw [hp] at hpv
      simpa using hpv
    obtain ⟨u, hu, huid⟩ := List.mem_map.mp hvidR
    have hvS : v ∈ S := hperm.mem_iff.mpr hv
    have huv : u = v := hinj (List.take_subset _ _ hu) hvS huid
    have hvtake : v ∈ S.take k := huv ▸ hu
    have hwdrop : w ∈ S.drop k := hpermF.subset hw
    have hsorted : S.Pairwise (fun a b => versionLE a b) :=
      List.sorted_mergeSort versionLE_trans versionLE_total L
    rw [← hsplit] at hsorted
    exact (List.pairwise_append.mp hsorted).2.2 v hvtake w hwdrop
  · intro v hv hvid
    refine List.mem_filter.mpr ⟨hv, ?_⟩
    rw [hp]
    simpa using hvid

/-- The snapshot block as a whole: the fresh snapshot of the old title/content
is stored and survives the trim, afterwards the note carries at most 50
versions, and only oldest-first versions were removed. -/
theorem saveVersionSnapshot_spec (id : Nat) (old : Note) (now : Nat) (db : DB)
    (hnd : (db.versions.map (fun v => v.id)).Nodup)
    (hfresh : ∀ v ∈ db.versions, v.id ≠ db.nextId)
    (hlt : ∀ v ∈ versionsOf id db, v.createdAt < now) :
    (⟨db.nextId, id, old.title, old.content, now⟩ : NoteVersion) ∈
        versionsOf id (saveVersionSnapshot id old now db) ∧
    (versionsOf id (saveVersionSnapshot id old now db)).length ≤ 50 ∧
    (∀ v ∈ versionsOf id db ++ [(⟨db.nextId, id, old.title, old.content, now⟩ : NoteVersion)],
      v ∉ versionsOf id (saveVersionSnapshot id old now db) →
      ∀ w ∈ versionsOf id (saveVersionSnapshot id old now db),
        v.createdAt ≤ w.createdAt) := by
  set snap : NoteVersion := ⟨db.nextId, id, old.title, old.content, now⟩ with hsnap
  set db1 : DB := { db with versions := db.versions ++ [snap], nextId := db.nextId + 1 }
    with hdb1
  have hL : versionsOf id db1 = versionsOf id db ++ [snap] := by
    simp [hdb1, versionsOf, List.filter_append, hsnap]
  set L := versionsOf id db1 with hL0
  have hcount : L.length = (versionsOf id db).length + 1 := by rw [hL]; simp
  have hndL : (L.map (fun v => v.id)).Nodup := by
    rw [hL, List.map_append, List.nodup_append]
    refine ⟨?_, by simp, ?_⟩
    · exact List.Nodup.sublist (List.Sublist.map _ (List.filter_sublist _)) hnd
    · intro x hx hx2
      obtain ⟨v, hv, rfl⟩ := List.mem_map.mp hx
      simp only [List.map_cons, List.map_nil, List.mem_singleton] at hx2
      exact hfresh v (List.mem_of_mem_filter hv) (by simpa [hsnap] using hx2)
  have hsnapL : snap ∈ L := by
    rw [hL]
    exact List.mem_append_right _ (List.mem_singleton_self snap)
  have hrepr : saveVersionSnapshot id old now db =
      if L.length > 50 then
        { db1 with versions := db1.versions.filter (fun v =>
          !(decide (v.id ∈ ((L.mergeSort versionLE).take (L.length - 50)).map
            (fun v => v.id)))) }
      else db1 := rfl
  by_cases hbig : L.length > 50
  · have hvout : versionsOf id (saveVersionSnapshot id old now db) =
        L.filter (fun v => !(decide (v.id ∈
          ((L.mergeSort versionLE).take (L.length - 50)).map (fun v => v.id)))) := by
      rw [hrepr, if_pos hbig]
      show (db1.versions.filter _).filter (fun v => v.noteId == id) = _
      rw [filter_comm']
      rfl
    obtain ⟨hlen, hold, hkept⟩ := trim_spec L (L.length - 50) (by omega) hndL
    have hperm : List.Perm (L.mergeSort versionLE) L := List.mergeSort_perm L versionLE
    have hndS : ((L.mergeSort versionLE).map (fun v => v.id)).Nodup :=
      ((hperm.map _).nodup_iff).mpr hndL
    have hsnapid : snap.id ∉ ((L.mergeSort versionLE).take (L.length - 50)).map
        (fun v => v.id) := by
      intro hin
      obtain ⟨u, hu, huid⟩ := List.mem_map.mp hin
      have hinj := List.inj_on_of_nodup_map hndS
      have hsnapS : snap ∈ L.mergeSort versionLE := hperm.mem_iff.mpr hsnapL
      have husnap : u = snap := hinj (List.take_subset _ _ hu) hsnapS huid
      have hsnaptake : snap ∈ (L.mergeSort versionLE).take (L.length - 50) := husnap ▸ hu
      have hlenS : (L.mergeSort versionLE).length = L.length := by simp
      have hdroplen : 0 < ((L.mergeSort versionLE).drop (L.length - 50)).length := by
        rw [List.length_drop, hlenS]
        omega
      obtain ⟨b, hb⟩ := List.exists_mem_of_length_pos hdroplen
      have hsorted := List.sorted_mergeSort versionLE_trans versionLE_total L
      have hsplit := List.take_append_drop (L.length - 50) (L.mergeSort versionLE)
      rw [← hsplit] at hsorted
      have hle : versionLE snap b = true :=
        (List.pairwise_append.mp hsorted).2.2 snap hsnaptake b hb
      have hbL : b ∈ L := hperm.subset (List.drop_subset _ _ hb)
      have hbne : b ≠ snap := by
        intro heq
        have hSnd : (L.mergeSort versionLE).Nodup := List.Nodup.of_map _ hndS
        rw [← hsplit] at hSnd
        exact (List.disjoint_of_nodup_append hSnd) hsnaptake (heq ▸ hb)
      have hbold : b ∈ versionsOf id db := by
        rw [hL] at hbL
        rcases List.mem_append.mp hbL with h | h
        · exact h
        · rw [List.mem_singleton] at h; exact absurd h hbne
      have hblt := hlt b hbold
      have hble : now ≤ b.createdAt := by simpa [versionLE, hsnap] using hle
      omega
    refine ⟨?_, ?_, ?_⟩
    · rw [hvout]
      exact hkept snap hsnapL hsnapid
    · rw [hvout, hlen]
      omega
    · intro v hv hnot w hw
      rw [hvout] at hnot hw
      have hvL : v ∈ L := by rw [hL]; exact hv
      have := hold v hvL hnot w hw
      simpa [versionLE] using this
  · have hvout : versionsOf id (saveVersionSnapshot id old now db) = L := by
      rw [hrepr, if_neg hbig]
    refine ⟨?_, ?_, ?_⟩
    · rw [hvout]; exact hsnapL
    · rw [hvout]; omega
    · intro v hv hnot w hw
      rw [hvout] at hnot
      exact absurd (by rw [hL]; exact hv) hnot

/-- C4: whenever PATCH `/api/notes/:id` carries a title or content field, the
handler first stores a `NoteVersion` snapshot of the note's previous title and
content, then trims the note to at most 50 versions, removing only oldest
versions; and GET `/api/notes/:id/versions` answers with at most 50 versions
ordered newest first. -/
theorem patch_versioning :
    ∀ (db db2 : DB) (uid now : Nat) (r : Request) (note note2 : Note),
      db.notes.find? (fun n => n.id == r.paramId && n.userId == uid) = some note →
      r.unlockPassword = none →
      ((r.content).isSome || (r.title).isSome) = true →
      (db.versions.map (fun v => v.id)).Nodup →
      (∀ v ∈ db.versions, v.id ≠ db.nextId) →
      (∀ v ∈ versionsOf r.paramId db, v.createdAt < now) →
      ((⟨db.nextId, r.paramId, note.title, note.content, now⟩ : NoteVersion) ∈
          versionsOf r.paramId (patchNote uid r now db).2 ∧
       (versionsOf r.paramId (patchNote uid r now db).2).length ≤ 50 ∧
       (∀ v ∈ versionsOf r.paramId db ++
            [(⟨db.nextId, r.paramId, note.title, note.content, now⟩ : NoteVersion)],
          v ∉ versionsOf r.paramId (patchNote uid r now db).2 →
          ∀ w ∈ versionsOf r.paramId (patchNote uid r now db).2,
            v.createdAt ≤ w.createdAt)) ∧
      (db2.notes.find? (fun n => n.id == r.paramId && n.userId == uid) = some note2 →
        ∃ vs, getVersions uid r db2 = (⟨200, .jsonVersions vs⟩, db2) ∧
          vs.length ≤ 50 ∧ vs.Pairwise (fun a b => b.createdAt ≤ a.createdAt)) := by
  intro db db2 uid now r note note2 hfind hpw htc hnd hfresh hlt
  have hvers : (patchNote uid r now db).2.versions =
      (saveVersionSnapshot r.paramId note now db).versions := by
    cases hlp : note.lockPassword with
    | none => simp [patchNote, hfind, hlp, hpw, htc]
    | some hsh => simp [patchNote, hfind, hlp, hpw, htc]
  have hvof : versionsOf r.paramId (patchNote uid r now db).2 =
      versionsOf r.paramId (saveVersionSnapshot r.paramId note now db) := by
    unfold versionsOf
    rw [hvers]
  have hsave := saveVersionSnapshot_spec r.paramId note now db hnd hfresh hlt
  constructor
  · rw [hvof]
    exact hsave
  · intro hfind2
    refine ⟨((versionsOf r.paramId db2).mergeSort versionGE).take 50, ?_, ?_, ?_⟩
    · simp [getVersions, hfind2]
    · exact List.length_take_le 50 _
    · have hs : ((versionsOf r.paramId db2).mergeSort versionGE).Pairwise
          (fun a b => versionGE a b) :=
        List.sorted_mergeSort versionGE_trans versionGE_total _
      have hsub := List.Pairwise.sublist (List.take_sublist 50 _) hs
      exact hsub.imp (fun h => by simpa [versionGE] using h)

/-- C4 witness: patching the title of a live note with no versions stores the
snapshot `⟨9, 6, "keep", "body", 10⟩`, and the versions listing for that note
is within bounds. -/
theorem patch_versioning_witness :
    (⟨9, 6, "keep", "body", 10⟩ : NoteVersion) ∈
      versionsOf 6 (patchNote 1 { paramId := 6, title := some "x" } 10 liveDB).2 :=
  (patch_versioning liveDB liveDB 1 10 { paramId := 6, title := some "x" } liveNote liveNote
    (by decide) rfl (by decide) (by decide) (by decide) (by decide)).1.1

end Inkwell
